import Mathlib

/-!
# Verification of the RudraOne real-time dispatch core

Shallow embedding of the reconnect policy (`useWebSocket.ts`), the audio
pipeline (`AudioService` in `translationService.ts`), the translation service
(`realtimeTranslationService.ts`), the insight extractor
(`InsightsExtractor`), and the protocol tracker (`ProtocolManager`),
together with theorems settling the specification claims about them.

Machine numbers are modelled as `Nat`/`Int` with explicit wrapping where the
JavaScript source can wrap; audio sample values (JS `number`s) are modelled
as exact rationals.
-/

set_option maxRecDepth 100000

namespace RudraOne

/-! ## Duplex channel reconnect policy (`useWebSocket.ts`) -/

/-- Constant `maxReconnectAttempts` from `useWebSocket.ts` (line 40). -/
def maxReconnectAttempts : Nat := 5

/-- Default `reconnectInterval` (ms) from `useWebSocket.ts` (line 32). -/
def reconnectInterval : Nat := 3000

/-- One `ws.onclose` failure event with `autoReconnect` enabled
(`useWebSocket.ts` lines 91-107): if the attempt counter is below the
ceiling it is incremented and a reconnect is scheduled after
`reconnectInterval * 2 ^ (attempts - 1)` ms; otherwise no reconnect is
scheduled.  Returns the new counter and the scheduled delay, if any. -/
def failStep (attempts : Nat) : Nat × Option Nat :=
  if attempts < maxReconnectAttempts then
    let a := attempts + 1
    (a, some (reconnectInterval * 2 ^ (a - 1)))
  else
    (attempts, none)

/-- Handler `ws.onopen` (`useWebSocket.ts` line 77) resets the attempt counter to
zero on every successful open. -/
def openStep (_attempts : Nat) : Nat := 0

/-- The attempt counter and the list of scheduled delays produced by `n`
consecutive connection failures starting from counter value `a`. -/
def failureDelays : Nat → Nat → Nat × List (Option Nat)
  | a, 0 => (a, [])
  | a, n + 1 =>
    let s := failStep a
    let rest := failureDelays s.1 n
    (rest.1, s.2 :: rest.2)

/-! ## Playback queue (`AudioService.playAudio`, `translationService.ts`) -/

/-- Constant `maxBufferSize` from `translationService.ts` (line 181). -/
def maxBufferSize : Nat := 15

/-- The queue push and drop-oldest step of `AudioService.playAudio`
(`translationService.ts` lines 327-335): append the arriving buffer, then if
the length exceeds `maxBufferSize` splice exactly the excess off the front.
Returns the new queue and the number of dropped buffers (a warning is logged
exactly when that number is positive). -/
def enqueueBuffer {α : Type} (queue : List α) (buf : α) : List α × Nat :=
  let q := queue ++ [buf]
  if q.length > maxBufferSize then
    let dropped := q.length - maxBufferSize
    (q.drop dropped, dropped)
  else
    (q, 0)

/-- Ingest a whole arrival sequence through `enqueueBuffer`. -/
def enqueueAll {α : Type} (queue : List α) (bufs : List α) : List α :=
  bufs.foldl (fun q b => (enqueueBuffer q b).1) queue

/-! ## Capture-side encoder (`AudioService.floatTo16BitPCM`) -/

/-- ECMAScript `ToInt16` wrap performed when a number is stored into an
`Int16Array` element. -/
def toInt16 (x : ℤ) : ℤ :=
  let m := x % 65536
  if 32768 ≤ m then m - 65536 else m

/-- ECMAScript integer conversion: truncation toward zero, on an exact
rational sample value. -/
def truncQ (q : ℚ) : ℤ :=
  if 0 ≤ q then ⌊q⌋ else ⌈q⌉

/-- The per-sample body of `AudioService.floatTo16BitPCM`
(`translationService.ts` lines 252-253): clamp the sample to `[-1, 1]`,
scale negative samples by `0x8000` and non-negative ones by `0x7fff`, and
store into an `Int16Array` element. -/
def pcmSample (x : ℚ) : ℤ :=
  let s := max (-1 : ℚ) (min 1 x)
  toInt16 (truncQ (if s < 0 then s * 32768 else s * 32767))

/-- Function `AudioService.floatTo16BitPCM` (`translationService.ts` lines 249-256):
element-wise conversion of a float sample buffer to 16-bit signed PCM.
Samples are modelled as exact rationals. -/
def floatTo16BitPCM (samples : List ℚ) : List ℤ :=
  samples.map pcmSample

/-! ## Playback scheduler (`AudioService.scheduleNextBuffer`) -/

/-- The timing recurrence of `AudioService.scheduleNextBuffer`
(`translationService.ts` lines 407-416): each buffer taken from the queue is
started at `max(currentTime, nextPlayTime)` and `nextPlayTime` then advances
to `startTime + buffer.duration`.  Input: the current `nextPlayTime` and,
for each scheduled buffer, the pair (observed `currentTime`, buffer
duration); output: the (start time, duration) pair of every scheduled
buffer, in order. -/
def schedulePlan (nextPlayTime : ℚ) : List (ℚ × ℚ) → List (ℚ × ℚ)
  | [] => []
  | (now, dur) :: rest =>
    let startTime := max now nextPlayTime
    (startTime, dur) :: schedulePlan (startTime + dur) rest

/-! ## μ-law decode (`AudioService.ulawToPCM16`) -/

/-- One entry of the `ULAW_TABLE` built in `AudioService.ulawToPCM16`
(`translationService.ts` lines 443-455), with JavaScript 32-bit integer
semantics made explicit: `~b` on an int32 has the unsigned bit pattern
`2^32 - 1 - b` for `0 ≤ b < 256`; the masks `& 0x80`, `& 0x07`, `& 0x0F`
take low bits, on which the sign-propagating `>> 4` agrees with a logical
shift; the result is stored into an `Int16Array` element. -/
def ulawTableEntry (b : Nat) : ℤ :=
  let u := 4294967295 - b
  let sign : ℤ := if u &&& 0x80 ≠ 0 then -1 else 1
  let exponent := (u >>> 4) &&& 0x07
  let mantissa := u &&& 0x0F
  let magnitude : ℤ := ((((mantissa <<< 3) + 0x84) <<< exponent : Nat) : ℤ) - 0x84
  toInt16 (sign * magnitude)

/-- The ITU-T G.711 reference decode exactly as the claim words it: with
`u` the bitwise-not of the byte, `sign = -1` iff `u & 0x80` is set,
`exponent = (u >> 4) & 7`, `mantissa = u & 0xF`, the decoded value is
`sign * ((((mantissa << 3) + 0x84) << exponent) - 0x84)`. -/
def ulawRefDecode (b : Nat) : ℤ :=
  let u := b ^^^ 0xFF
  let sign : ℤ := if u &&& 0x80 ≠ 0 then -1 else 1
  let exponent := (u >>> 4) &&& 0x07
  let mantissa := u &&& 0x0F
  sign * (((((mantissa <<< 3) + 0x84) <<< exponent : Nat) : ℤ) - 0x84)

/-! ## Theorems: reconnect backoff (C2) -/

/-- C2:  With `autoReconnect` enabled, the reconnect delays scheduled on
the 1st through 5th consecutive failures (starting from a reset counter) are
exactly 3000, 6000, 12000, 24000 and 48000 ms, a 6th failure schedules no
reconnect, and a successful open resets the attempt counter to zero from any
value. -/
theorem reconnect_backoff_sequence :
    failureDelays 0 6 =
      (5, [some 3000, some 6000, some 12000, some 24000, some 48000, none]) ∧
    (∀ a : Nat, openStep a = 0) :=
  ⟨by decide, fun _ => rfl⟩

/-! ## Theorems: playback queue bound (C3) -/

theorem enqueueBuffer_eq {α : Type} (q : List α) (b : α) :
    enqueueBuffer q b =
      ((q ++ [b]).drop (q.length + 1 - 15), q.length + 1 - 15) := by
  unfold enqueueBuffer maxBufferSize
  by_cases h : q.length + 1 > 15
  · simp [List.length_append, h]
  · have h0 : q.length + 1 - 15 = 0 := by omega
    simp [List.length_append, h, h0]

/-- C3:  After any enqueue the playback queue holds at most
`maxBuffer = 15` buffers: the post-enqueue length is `min (n+1) 15`, the
surviving buffers are exactly the newest ones (the oldest excess is dropped
from the front), the dropped count (which is logged when positive) is
exactly the excess, and ingesting 16 buffers into an empty queue leaves 15
with only the single oldest buffer evicted. -/
theorem playback_queue_drop_oldest :
    (∀ (α : Type) (q : List α) (b : α),
      (enqueueBuffer q b).1.length = min (q.length + 1) 15 ∧
      (enqueueBuffer q b).1 = (q ++ [b]).drop (q.length + 1 - 15) ∧
      (enqueueBuffer q b).2 = q.length + 1 - 15) ∧
    enqueueAll ([] : List Nat) (List.range 16) = (List.range 16).drop 1 := by
  refine ⟨fun α q b => ?_, by decide⟩
  rw [enqueueBuffer_eq]
  refine ⟨?_, rfl, rfl⟩
  simp only [List.length_drop, List.length_append, List.length_cons,
    List.length_nil]
  omega

/-! ## Theorems: capture-side encoder range safety (C10) -/

theorem toInt16_eq_self {x : ℤ} (h1 : -32768 ≤ x) (h2 : x ≤ 32767) :
    toInt16 x = x := by
  unfold toInt16
  by_cases hx : 0 ≤ x
  · have : x % 65536 = x := Int.emod_eq_of_lt hx (by omega)
    simp [this]
    omega
  · have : x % 65536 = x + 65536 := by
      have := Int.add_mul_emod_self_left (a := x) (b := 65536) (c := 1)
      have h3 : (x + 65536) % 65536 = x + 65536 :=
        Int.emod_eq_of_lt (by omega) (by omega)
      omega
    simp [this]
    omega

theorem pcmSample_range (x : ℚ) :
    -32768 ≤ pcmSample x ∧ pcmSample x ≤ 32767 := by
  unfold pcmSample
  set s : ℚ := max (-1 : ℚ) (min 1 x) with hs
  have hsl : (-1 : ℚ) ≤ s := le_max_left _ _
  have hsu : s ≤ 1 := max_le (by norm_num) (min_le_left _ _)
  have hrange : -32768 ≤ truncQ (if s < 0 then s * 32768 else s * 32767) ∧
      truncQ (if s < 0 then s * 32768 else s * 32767) ≤ 32767 := by
    by_cases hneg : s < 0
    · rw [if_pos hneg]
      have hv1 : (-32768 : ℚ) ≤ s * 32768 := by nlinarith
      have hv2 : s * 32768 ≤ 0 := by nlinarith
      unfold truncQ
      by_cases h0 : 0 ≤ s * 32768
      · rw [if_pos h0]
        have hz : s * 32768 = 0 := le_antisymm hv2 h0
        rw [hz]
        norm_num
      · rw [if_neg h0]
        constructor
        · have := Int.ceil_le_ceil (α := ℚ) hv1
          simpa using this
        · have : ⌈s * 32768⌉ ≤ ⌈(0 : ℚ)⌉ := Int.ceil_le_ceil hv2
          simpa using this.trans (by norm_num)
    · rw [if_neg hneg]
      push_neg at hneg
      have hv1 : (0 : ℚ) ≤ s * 32767 := by nlinarith
      have hv2 : s * 32767 ≤ 32767 := by nlinarith
      unfold truncQ
      rw [if_pos hv1]
      constructor
      · have : (0 : ℤ) ≤ ⌊s * 32767⌋ := Int.floor_nonneg.mpr hv1
        omega
      · have := Int.floor_le_floor (α := ℚ) hv2
        simpa using this
  rw [toInt16_eq_self hrange.1 hrange.2]
  exact hrange

theorem pcmSample_neg_one : pcmSample (-1) = -32768 := by
  have hclamp : max (-1 : ℚ) (min 1 (-1)) = -1 := by norm_num
  have hval : truncQ ((-1 : ℚ) * 32768) = -32768 := by
    have : ((-1 : ℚ) * 32768) = ((-32768 : ℤ) : ℚ) := by norm_num
    rw [truncQ, this]
    rw [if_neg (by norm_num)]
    exact Int.ceil_intCast _
  rw [pcmSample]
  rw [hclamp, if_pos (by norm_num : (-1 : ℚ) < 0), hval]
  rw [toInt16_eq_self (by norm_num) (by norm_num)]

theorem pcmSample_one : pcmSample 1 = 32767 := by
  have hclamp : max (-1 : ℚ) (min 1 1) = 1 := by norm_num
  have hval : truncQ ((1 : ℚ) * 32767) = 32767 := by
    have : ((1 : ℚ) * 32767) = ((32767 : ℤ) : ℚ) := by norm_num
    rw [truncQ, this]
    rw [if_pos (by norm_num)]
    exact Int.floor_intCast _
  rw [pcmSample]
  rw [hclamp, if_neg (by norm_num : ¬ (1 : ℚ) < 0), hval]
  rw [toInt16_eq_self (by norm_num) (by norm_num)]

/-- C10:  The capture-side encoder is overflow-safe: every output sample
of `floatTo16BitPCM` lies in the signed 16-bit range `[-32768, 32767]`, even
for input samples outside `[-1, 1]`; an input of `-1` maps to `-32768` and
an input of `1` maps to `32767`. -/
theorem floatTo16BitPCM_range :
    (∀ samples : List ℚ,
      (floatTo16BitPCM samples).Forall fun y => -32768 ≤ y ∧ y ≤ 32767) ∧
    floatTo16BitPCM [-1, 1] = [-32768, 32767] := by
  constructor
  · intro samples
    rw [floatTo16BitPCM, List.forall_map_iff]
    rw [List.forall_iff_forall_mem]
    intro x _
    exact pcmSample_range x
  · show [pcmSample (-1), pcmSample 1] = [-32768, 32767]
    rw [pcmSample_neg_one, pcmSample_one]

/-! ## Translation service (`realtimeTranslationService.ts`) -/

/-- The `languageMap` dictionary of `RealtimeTranslationService`
(`realtimeTranslationService.ts` lines 29-66). -/
def languageMap : List (String × String) :=
  [("spanish", "es"), ("english", "en"), ("french", "fr"), ("german", "de"),
   ("italian", "it"), ("portuguese", "pt"), ("russian", "ru"),
   ("japanese", "ja"), ("korean", "ko"), ("chinese", "zh"),
   ("arabic", "ar"), ("hindi", "hi"), ("bengali", "bn"), ("telugu", "te"),
   ("marathi", "mr"), ("tamil", "ta"), ("urdu", "ur"), ("gujarati", "gu"),
   ("kannada", "kn"), ("odia", "or"), ("malayalam", "ml"),
   ("punjabi", "pa"), ("assamese", "as"), ("maithili", "mai"),
   ("santali", "sat"), ("kashmiri", "ks"), ("nepali", "ne"),
   ("sindhi", "sd"), ("konkani", "kok"), ("dogri", "doi"),
   ("manipuri", "mni"), ("bodo", "brx"), ("sanskrit", "sa")]

/-- Function `getLanguageCode` (`realtimeTranslationService.ts` lines 78-81): look
the lowercased name up in `languageMap`, falling back to the lowercased
input itself. -/
def getLanguageCode (language : String) : String :=
  let lowerLang := language.toLower
  (languageMap.lookup lowerLang).getD lowerLang

/-- Whether some character of the text lies in the inclusive code-point
range `[lo, hi]` (one `/[\u....-\u....]/.test(text)` probe). -/
def hasCharInRange (text : String) (lo hi : Nat) : Bool :=
  text.toList.any fun c => decide (lo ≤ c.toNat) && decide (c.toNat ≤ hi)

/-- Function `detectLanguage` (`realtimeTranslationService.ts` lines 86-124): the
offline script heuristic, checked in the source's fixed priority order,
defaulting to `"en"` for empty/whitespace-only text and for Latin script. -/
def detectLanguage (text : String) : String :=
  if text.trim = "" then "en"
  else if hasCharInRange text 0x0900 0x097F then "hi"
  else if hasCharInRange text 0x0980 0x09FF then "bn"
  else if hasCharInRange text 0x0B80 0x0BFF then "ta"
  else if hasCharInRange text 0x0C00 0x0C7F then "te"
  else if hasCharInRange text 0x0C80 0x0CFF then "kn"
  else if hasCharInRange text 0x0D00 0x0D7F then "ml"
  else if hasCharInRange text 0x0A80 0x0AFF then "gu"
  else if hasCharInRange text 0x0A00 0x0A7F then "pa"
  else if hasCharInRange text 0x0B00 0x0B7F then "or"
  else if hasCharInRange text 0x0600 0x06FF then "ar"
  else if hasCharInRange text 0x4E00 0x9FFF then "zh"
  else if hasCharInRange text 0x3040 0x309F || hasCharInRange text 0x30A0 0x30FF then "ja"
  else if hasCharInRange text 0xAC00 0xD7AF then "ko"
  else if hasCharInRange text 0x0400 0x04FF then "ru"
  else "en"

/-- Function `getCacheKey` (`realtimeTranslationService.ts` lines 71-73). -/
def getCacheKey (text sourceLang targetLang : String) : String :=
  sourceLang ++ ":" ++ targetLang ++ ":" ++ text.toLower.trim

/-- Result of one `translate` call: the returned text, the cache after the
call, and whether the network was hit. -/
structure TranslateOutcome where
  result : String
  cache : List (String × String)
  networkCalled : Bool
deriving DecidableEq, Repr

/-- The network branch of `translate` (`realtimeTranslationService.ts`
lines 160-204): on API success the translation is returned and
written through to the cache; on any failure the original text is returned
unchanged. -/
def translateFetch (cache : List (String × String)) (key text : String)
    (api : Option String) : TranslateOutcome :=
  match api with
  | some translated => ⟨translated, (key, translated) :: cache, true⟩
  | none => ⟨text, cache, true⟩

/-- Method `RealtimeTranslationService.translate`
(`realtimeTranslationService.ts` lines 129-205): empty text returns
unchanged; language codes are normalized (auto-detecting the source when
requested); same source and target short-circuits; otherwise the cache is
consulted (a cached empty string is a miss, matching the JS truthiness
test) before hitting the network.  The external capability is passed in as
`api` (`none` = transport or API failure). -/
def translate (cache : List (String × String))
    (text sourceLanguage targetLanguage : String)
    (api : Option String) : TranslateOutcome :=
  if text.trim = "" then ⟨text, cache, false⟩
  else
    let targetLang := getLanguageCode targetLanguage
    let sourceLang :=
      if sourceLanguage = "auto" then detectLanguage text
      else getLanguageCode sourceLanguage
    if sourceLang = targetLang then ⟨text, cache, false⟩
    else
      let key := getCacheKey text sourceLang targetLang
      match cache.lookup key with
      | some cached =>
        if cached ≠ "" then ⟨cached, cache, false⟩
        else translateFetch cache key text api
      | none => translateFetch cache key text api

/-! ## Insight extractor (`InsightsExtractor`) -/

/-- An element of `persons_described`
(`InsightsData.persons_described : Array<{name, role} | string>`).
`JSON.stringify` equality on records parsed from the same capability
response is structural equality. -/
inductive PersonEntry where
  | obj (name role : String)
  | str (s : String)
deriving DecidableEq, Repr

/-- The accumulated `InsightsData` record.  The open-keyed `incident` and
`time_info` objects are modelled as total maps from key to value, with `""`
standing for an absent key (JS reads an absent property as falsy, exactly
like an empty-string value in the truthiness tests the merge performs). -/
@[ext]
structure InsightsData where
  persons_described : List PersonEntry
  location : List String
  incident : String → String
  time_info : String → String
  additional_info : List String
  new_information_found : Bool
  summary : String

/-- A parsed capability response (`Partial<InsightsData>`): each field may
be absent.  The `incident`/`time_info` payloads are the key/value entry
lists that `Object.entries` iterates, in order. -/
structure IncomingInsights where
  persons_described : Option (List PersonEntry)
  location : Option (List String)
  incident : Option (List (String × String))
  time_info : Option (List (String × String))
  additional_info : Option (List String)
  new_information_found : Option Bool
  summary : Option String

/-- Method `InsightsExtractor.mergeListsUnique` (`part_001` lines 116-137): start
from the old list and append each incoming item not already present
(objects by deep equality, primitives by value — both structural equality
here). -/
def mergeListsUnique {α : Type} [DecidableEq α] (oldList newList : List α) :
    List α :=
  newList.foldl (fun result item =>
    if item ∈ result then result else result ++ [item]) oldList

/-- The last entry of the list whose key is `k` and whose value is truthy
(non-empty), if any — what a left-to-right overwrite pass leaves at `k`. -/
def lastTruthyVal : List (String × String) → String → Option String
  | [], _ => none
  | e :: es, k =>
    match lastTruthyVal es k with
    | some v => some v
    | none => if e.1 = k ∧ e.2 ≠ "" then some e.2 else none

/-- The map-field merge of `InsightsExtractor.mergeData` (`part_001` lines
164-182): copy the existing object, then for each incoming entry overwrite
the key only when the incoming value is truthy. -/
def mergeMapTruthy (old : String → String)
    (entries : List (String × String)) : String → String :=
  entries.foldl (fun m kv =>
    if kv.2 ≠ "" then Function.update m kv.1 kv.2 else m) old

/-- Method `InsightsExtractor.mergeData` (`part_001` lines 139-193): list fields
merge by structural-equality dedup, `incident`/`time_info` merge per key
overwriting only with truthy values, `summary` is replaced when the
incoming one is truthy, and `new_information_found` becomes the incoming
value, defaulting to `true` when absent. -/
def mergeData (existing : InsightsData) (newData : IncomingInsights) :
    InsightsData where
  persons_described :=
    match newData.persons_described with
    | some l => mergeListsUnique existing.persons_described l
    | none => existing.persons_described
  location :=
    match newData.location with
    | some l => mergeListsUnique existing.location l
    | none => existing.location
  incident :=
    match newData.incident with
    | some es => mergeMapTruthy existing.incident es
    | none => existing.incident
  time_info :=
    match newData.time_info with
    | some es => mergeMapTruthy existing.time_info es
    | none => existing.time_info
  additional_info :=
    match newData.additional_info with
    | some l => mergeListsUnique existing.additional_info l
    | none => existing.additional_info
  new_information_found := newData.new_information_found.getD true
  summary :=
    match newData.summary with
    | some s => if s ≠ "" then s else existing.summary
    | none => existing.summary

/-- The fresh accumulated record `processSentence` builds for an unknown
caller (`part_001` lines 203-213). -/
def emptyInsights : InsightsData where
  persons_described := []
  location := []
  incident := fun _ => ""
  time_info := fun _ => ""
  additional_info := []
  new_information_found := false
  summary := ""

/-- The caller-name injection of `processSentence` (`part_001` lines
215-219): if a non-empty caller name is supplied and no object entry with
that name exists, push `{name, role: "caller"}` onto `persons_described`.
In the source this mutates the record in place. -/
def injectCallerName (data : InsightsData) (callerName : Option String) :
    InsightsData :=
  match callerName with
  | none => data
  | some n =>
    if n ≠ "" ∧ ¬ data.persons_described.any (fun p =>
        match p with
        | .obj name _ => name = n
        | .str _ => false) then
      { data with
        persons_described := data.persons_described ++ [.obj n "caller"] }
    else data

/-- Method `InsightsExtractor.processSentence` (`part_001` lines 195-250) for one
session store (`conversationHistory`, modelled as a map from caller id to
record): fetch or create the accumulated record, inject the caller name
(an in-place mutation, so when the session already existed the stored
record aliases it and changes too), then on capability success
(`extractResult = some _`, covering both the model call and the JSON parse
of its fenced-code-stripped response) merge and store; on failure return
the (injected) record without raising.  Returns the returned record and
the store after the call. -/
def processSentence (history : String → Option InsightsData)
    (_sentence : String) (callerId : String) (callerName : Option String)
    (extractResult : Option IncomingInsights) :
    InsightsData × (String → Option InsightsData) :=
  let existing0 := (history callerId).getD emptyInsights
  let existing := injectCallerName existing0 callerName
  let history1 :=
    match history callerId with
    | some _ => Function.update history callerId (some existing)
    | none => history
  match extractResult with
  | none => (existing, history1)
  | some extracted =>
    let merged := mergeData existing extracted
    (merged, Function.update history1 callerId (some merged))

/-! ## Protocol tracker (`ProtocolManager`, `realtimeTranslationService.ts`) -/

/-- Interface `ProtocolQuestion` (`realtimeTranslationService.ts` lines
340-347). -/
structure ProtocolQuestion where
  id : String
  question : String
  category : String
  isAsked : Bool
  isPredefined : Bool
  priority : Nat
deriving DecidableEq, Repr

/-- Interface `ProtocolState` (`realtimeTranslationService.ts` lines
349-353). -/
structure ProtocolState where
  questions : List ProtocolQuestion
  conversationContext : String
  lastUpdated : Nat
deriving DecidableEq, Repr

/-- One parsed entry of the capability's JSON array in
`generateAdditionalQuestions` (`realtimeTranslationService.ts` lines
569-573); `priority` may be absent. -/
structure AiQuestion where
  question : String
  category : String
  priority : Option Nat
deriving DecidableEq, Repr

/-- Constant `PREDEFINED_QUESTIONS` (`realtimeTranslationService.ts` lines
356-399), with the `isAsked := false` flag that `initializeSession` adds. -/
def predefinedQuestions : List ProtocolQuestion :=
  [⟨"emergency-type", "What's your emergency?", "incident",
      false, true, 1⟩,
   ⟨"location-address", "What is the exact address of the incident?",
      "location", false, true, 2⟩,
   ⟨"caller-safety", "Are you in a safe location right now?", "safety",
      false, true, 3⟩,
   ⟨"injuries", "Is anyone injured or in need of medical attention?",
      "medical", false, true, 4⟩,
   ⟨"weapons-violence", "Are there any weapons or violence involved?",
      "safety", false, true, 5⟩,
   ⟨"people-count", "How many people are involved?", "incident",
      false, true, 6⟩]

/-- Method `ProtocolManager.initializeSession`
(`realtimeTranslationService.ts` lines 444-458): seed the predefined
questions, all unanswered, with an empty conversation context;
`now` stands for `Date.now()`. -/
def initializeSession (now : Nat) : ProtocolState where
  questions := predefinedQuestions
  conversationContext := ""
  lastUpdated := now

/-- Method `ProtocolManager.generateAdditionalQuestions`
(`realtimeTranslationService.ts` lines 539-605) over the session store.
A missing session throws (`Except.error`).  The conversation context is
written into the state before the capability call.  The capability is
passed in as `api` (`none` = model call or JSON parse failure); on failure
the catch block returns `[]`.  On success the parsed questions get ids
`ai-<now>-<index>` and priority `q.priority || (100 + index)`, are
deduplicated case-insensitively against existing question text, appended,
and the list is re-sorted by ascending priority (a stable sort, as
ECMAScript requires). -/
def generateAdditionalQuestions (sessions : String → Option ProtocolState)
    (callerId : String) (conversationContext : String)
    (api : Option (List AiQuestion)) (now : Nat) :
    Except String (List ProtocolQuestion × (String → Option ProtocolState)) :=
  match sessions callerId with
  | none => Except.error "Session not initialized"
  | some state0 =>
    let state := { state0 with conversationContext := conversationContext }
    match api with
    | none => Except.ok ([], Function.update sessions callerId (some state))
    | some aiQuestions =>
      let newQuestions : List ProtocolQuestion :=
        aiQuestions.enum.map fun p =>
          { id := "ai-" ++ toString now ++ "-" ++ toString p.1
            question := p.2.question
            category := p.2.category
            isAsked := false
            isPredefined := false
            priority :=
              match p.2.priority with
              | some pr => if pr = 0 then 100 + p.1 else pr
              | none => 100 + p.1 }
      let merged := newQuestions.foldl (fun acc newQ =>
        if acc.any fun ex => ex.question.toLower = newQ.question.toLower
        then acc
        else acc ++ [newQ]) state.questions
      let sorted := merged.mergeSort fun a b => a.priority ≤ b.priority
      let state2 := { state with questions := sorted, lastUpdated := now }
      Except.ok (newQuestions, Function.update sessions callerId (some state2))

/-- Method `ProtocolManager.getCompletionPercentage`
(`realtimeTranslationService.ts` lines 648-656): 0 for an empty question
list, else `Math.round` of the answered-predefined over total-predefined
ratio times 100, supplemental questions taking part in neither count.
`Math.round x` is `⌊x + 1/2⌋`; the ratio is modelled as an exact
rational. -/
def getCompletionPercentage (state : ProtocolState) : ℤ :=
  if state.questions.length = 0 then 0
  else
    let predefined := state.questions.filter fun q => q.isPredefined
    let asked := predefined.filter fun q => q.isAsked
    ⌊(asked.length : ℚ) / (predefined.length : ℚ) * 100 + 1 / 2⌋

/-! ## Theorems: gap-free non-overlapping scheduling (C4) -/

theorem schedulePlan_head_start_ge (steps : List (ℚ × ℚ)) (npt : ℚ) :
    ∀ p ∈ (schedulePlan npt steps).head?, npt ≤ p.1 := by
  cases steps with
  | nil => intro p hp; simp [schedulePlan] at hp
  | cons hd rest =>
    intro p hp
    obtain ⟨now, dur⟩ := hd
    simp only [schedulePlan, List.head?_cons, Option.mem_def,
      Option.some.injEq] at hp
    rw [← hp]
    exact le_max_right _ _

/-- C4:  Scheduled playback is non-overlapping and gap-free: with each
buffer started at `max(currentTime, nextPlayTime)` and `nextPlayTime`
advanced to `startTime + duration`, consecutive scheduled buffers satisfy
`start (k+1) ≥ start k + duration k`, for every initial `nextPlayTime` and
every sequence of (currentTime, duration) observations. -/
theorem schedulePlan_no_overlap (npt : ℚ) (steps : List (ℚ × ℚ)) :
    List.Chain' (fun a b : ℚ × ℚ => a.1 + a.2 ≤ b.1)
      (schedulePlan npt steps) := by
  induction steps generalizing npt with
  | nil => simp [schedulePlan]
  | cons hd rest ih =>
    obtain ⟨now, dur⟩ := hd
    rw [schedulePlan]
    rw [List.chain'_cons']
    exact ⟨schedulePlan_head_start_ge rest _, ih _⟩

/-! ## Theorems: μ-law decode (C5) -/

/-- C5:  For all 256 μ-law byte values the decode-table entry of
`AudioService.ulawToPCM16` equals the ITU-T G.711 reference value stated in
the claim (so the decode is a fixed pure function of the byte), and every
code whose inverted sign bit is set decodes to a non-positive value. -/
theorem ulaw_table_matches_reference :
    ∀ b : Fin 256,
      ulawTableEntry b.val = ulawRefDecode b.val ∧
      ((255 - b.val) &&& 0x80 ≠ 0 → ulawTableEntry b.val ≤ 0) := by
  decide

/-- Witness for `ulaw_table_matches_reference` at byte 0 (whose inverted
sign bit is set). -/
theorem ulaw_table_matches_reference_witness :
    ulawTableEntry 0 = ulawRefDecode 0 ∧ ulawTableEntry 0 ≤ 0 :=
  ⟨(ulaw_table_matches_reference 0).1,
   (ulaw_table_matches_reference 0).2 (by decide)⟩

/-! ## Theorems: same-language translation is the identity (C6) -/

/-- C6:  Same-language translation is an identity with no side effect:
for every cache state, text and concrete language `L` (i.e. not the
`"auto"` sentinel), `translate(text, L, L)` returns the text unchanged,
leaves the cache mapping identical, and makes no network call — whatever
the external capability would have answered. -/
theorem translate_same_language (cache : List (String × String))
    (t L : String) (api : Option String) (h : L ≠ "auto") :
    translate cache t L L api = ⟨t, cache, false⟩ := by
  unfold translate
  by_cases ht : t.trim = ""
  · rw [if_pos ht]
  · rw [if_neg ht]
    simp [if_neg h]

/-- Witness for `translate_same_language`: English-to-English on an empty
cache with a failing capability. -/
theorem translate_same_language_witness :
    "english" ≠ "auto" ∧
    translate [] "hello" "english" "english" none = ⟨"hello", [], false⟩ :=
  ⟨by decide, translate_same_language [] "hello" "english" none (by decide)⟩

/-! ## Theorems: insight merge idempotence (C1) -/

theorem mergeListsUnique_cons {α : Type} [DecidableEq α] (old : List α)
    (n : α) (ns : List α) :
    mergeListsUnique old (n :: ns) =
      mergeListsUnique (if n ∈ old then old else old ++ [n]) ns := rfl

theorem mem_mergeListsUnique_of_mem_old {α : Type} [DecidableEq α]
    {x : α} (newList : List α) {oldList : List α} (hx : x ∈ oldList) :
    x ∈ mergeListsUnique oldList newList := by
  induction newList generalizing oldList with
  | nil => exact hx
  | cons n ns ih =>
    rw [mergeListsUnique_cons]
    apply ih
    by_cases hn : n ∈ oldList
    · rwa [if_pos hn]
    · rw [if_neg hn]
      exact List.mem_append_left _ hx

theorem mem_mergeListsUnique_of_mem_new {α : Type} [DecidableEq α]
    {x : α} {newList : List α} (oldList : List α) (hx : x ∈ newList) :
    x ∈ mergeListsUnique oldList newList := by
  induction newList generalizing oldList with
  | nil => cases hx
  | cons n ns ih =>
    rw [mergeListsUnique_cons]
    rcases List.mem_cons.mp hx with h | h
    · subst h
      apply mem_mergeListsUnique_of_mem_old
      by_cases hn : x ∈ oldList
      · rwa [if_pos hn]
      · rw [if_neg hn]
        exact List.mem_append_right _ (List.mem_singleton_self x)
    · exact ih _ h

theorem mergeListsUnique_eq_self {α : Type} [DecidableEq α]
    {m newList : List α} (h : ∀ x ∈ newList, x ∈ m) :
    mergeListsUnique m newList = m := by
  induction newList with
  | nil => rfl
  | cons n ns ih =>
    rw [mergeListsUnique_cons, if_pos (h n (List.mem_cons_self n ns))]
    exact ih fun x hx => h x (List.mem_cons_of_mem n hx)

theorem mergeListsUnique_idem {α : Type} [DecidableEq α]
    (oldList newList : List α) :
    mergeListsUnique (mergeListsUnique oldList newList) newList =
      mergeListsUnique oldList newList :=
  mergeListsUnique_eq_self fun _ hx =>
    mem_mergeListsUnique_of_mem_new oldList hx

theorem mergeMapTruthy_cons (old : String → String)
    (e : String × String) (es : List (String × String)) :
    mergeMapTruthy old (e :: es) =
      mergeMapTruthy
        (if e.2 ≠ "" then Function.update old e.1 e.2 else old) es := rfl

theorem mergeMapTruthy_apply (es : List (String × String))
    (old : String → String) (k : String) :
    mergeMapTruthy old es k = (lastTruthyVal es k).getD (old k) := by
  induction es generalizing old with
  | nil => rfl
  | cons e es ih =>
    rw [mergeMapTruthy_cons, ih]
    show _ = (lastTruthyVal (e :: es) k).getD (old k)
    rw [lastTruthyVal]
    cases h : lastTruthyVal es k with
    | some v => rfl
    | none =>
      simp only [Option.getD]
      by_cases h2 : e.2 = ""
      · simp [h2]
      · by_cases h1 : e.1 = k
        · simp [h1, h2, Function.update, eq_comm]
        · have hk : k ≠ e.1 := fun hk => h1 hk.symm
          simp [h1, h2, Function.update_noteq hk]

theorem mergeMapTruthy_idem (old : String → String)
    (es : List (String × String)) :
    mergeMapTruthy (mergeMapTruthy old es) es = mergeMapTruthy old es := by
  funext k
  rw [mergeMapTruthy_apply, mergeMapTruthy_apply]
  cases h : lastTruthyVal es k <;> simp [h]

/-- C1:  The insight merge is idempotent: merging the same partial
record into an accumulated record twice yields exactly the result of
merging it once — the list fields deduplicate by structural equality, the
map fields overwrite per key only with truthy values (so a repeat pass
changes nothing), and `summary` and `new_information_found` are replaced
wholesale by the same incoming value both times. -/
theorem mergeData_idempotent (A : InsightsData) (P : IncomingInsights) :
    mergeData (mergeData A P) P = mergeData A P := by
  refine InsightsData.ext ?_ ?_ ?_ ?_ ?_ ?_ ?_
  · simp only [mergeData]
    cases h : P.persons_described <;> simp [mergeListsUnique_idem]
  · simp only [mergeData]
    cases h : P.location <;> simp [mergeListsUnique_idem]
  · simp only [mergeData]
    cases h : P.incident <;> simp [mergeMapTruthy_idem]
  · simp only [mergeData]
    cases h : P.time_info <;> simp [mergeMapTruthy_idem]
  · simp only [mergeData]
    cases h : P.additional_info <;> simp [mergeListsUnique_idem]
  · rfl
  · simp only [mergeData]
    cases h : P.summary with
    | none => rfl
    | some s => by_cases hs : s = "" <;> simp [hs]

/-! ## Theorems: generateAdditional on capability failure (C7) -/

/-- A session store holding one freshly initialized protocol session for
caller `"c1"`. -/
def demoProtocolSessions : String → Option ProtocolState :=
  fun cid => if cid = "c1" then some (initializeSession 0) else none

/-- C7 (counterexample): the claim says that on capability failure the
session's `ProtocolState` — `conversationContext` included — is exactly
what it was before the call.  It is not: `generateAdditionalQuestions`
writes the supplied conversation context into the state before the `try`
block, so after a failing call on the fresh `"c1"` session (whose context
was `""`) the stored context is the new text.  The call does return `[]`
and raises nothing. -/
theorem generateAdditional_failure_counterexample :
    ((generateAdditionalQuestions demoProtocolSessions "c1"
        "caller reports a fire" none 5).toOption.map
      fun p => (p.1, (p.2 "c1").map ProtocolState.conversationContext)) =
      some ([], some "caller reports a fire") ∧
    (demoProtocolSessions "c1").map ProtocolState.conversationContext
      = some "" := by
  exact ⟨rfl, rfl⟩

/-- C7 (amended): on capability failure (model call or JSON parse),
`generateAdditionalQuestions` returns an empty list and raises nothing;
the session's questions and `lastUpdated` are exactly what they were, but
its `conversationContext` has been set to the supplied context, which
happens before the capability call and persists on failure. -/
theorem generateAdditional_failure_amended
    (sessions : String → Option ProtocolState) (cid ctx : String)
    (now : Nat) (st : ProtocolState) (h : sessions cid = some st) :
    generateAdditionalQuestions sessions cid ctx none now =
      Except.ok ([], Function.update sessions cid
        (some { st with conversationContext := ctx })) := by
  unfold generateAdditionalQuestions
  rw [h]

/-- Witness for `generateAdditional_failure_amended` on the `"c1"` demo
session. -/
theorem generateAdditional_failure_amended_witness :
    generateAdditionalQuestions demoProtocolSessions "c1" "fires" none 7 =
      Except.ok ([], Function.update demoProtocolSessions "c1"
        (some { initializeSession 0 with conversationContext := "fires" })) :=
  generateAdditional_failure_amended demoProtocolSessions "c1" "fires" 7
    (initializeSession 0) (by decide)

/-! ## Theorems: completion percentage over predefined questions (C8) -/

/-- C8: `getCompletionPercentage` is `round(100 * answeredPredefined /
totalPredefined)` computed over predefined questions only — supplemental
questions appear in neither count, as the state is arbitrary beyond the
two filter-length hypotheses — and with the 6 seeded predefined questions
of which exactly 3 are answered the result is 50, regardless of how many
supplemental questions exist or are answered. -/
theorem completion_percentage_predefined_only (st : ProtocolState)
    (a t : Nat)
    (ht : (st.questions.filter fun q => q.isPredefined).length = t)
    (ha : ((st.questions.filter fun q => q.isPredefined).filter
            fun q => q.isAsked).length = a)
    (htpos : 0 < t) :
    getCompletionPercentage st = ⌊(100 * a : ℚ) / (t : ℚ) + 1 / 2⌋ ∧
    (t = 6 → a = 3 → getCompletionPercentage st = 50) := by
  have hne : ¬ st.questions.length = 0 := by
    intro h0
    rw [List.eq_nil_of_length_eq_zero h0] at ht
    simp only [List.filter_nil, List.length_nil] at ht
    omega
  unfold getCompletionPercentage
  rw [if_neg hne]
  dsimp only
  rw [ha, ht]
  constructor
  · congr 1
    ring
  · intro h6 h3
    subst h6
    subst h3
    rw [show ((3 : Nat) : ℚ) / ((6 : Nat) : ℚ) * 100 + 1 / 2
          = 101 / 2 by norm_num]
    rw [Int.floor_eq_iff]
    norm_num

/-- The seeded session with its first three predefined questions marked
answered and two supplemental questions appended, both answered. -/
def demoProtocolState : ProtocolState where
  questions :=
    (predefinedQuestions.map fun q =>
      if q.priority ≤ 3 then { q with isAsked := true } else q) ++
    [⟨"ai-0-0", "Which direction did they go?", "location",
        true, false, 100⟩,
     ⟨"ai-0-1", "What color and make is the vehicle?", "description",
        true, false, 101⟩]
  conversationContext := ""
  lastUpdated := 0

/-- Witness for `completion_percentage_predefined_only`: 6 predefined
questions, 3 of them answered, plus 2 answered supplemental questions,
give 50. -/
theorem completion_percentage_predefined_only_witness :
    getCompletionPercentage demoProtocolState = 50 :=
  (completion_percentage_predefined_only demoProtocolState 3 6
    (by decide) (by decide) (by decide)).2 rfl rfl

/-! ## Theorems: processSentence on extraction failure (C9) -/

/-- A conversation-history store holding an empty accumulated record for
caller `"c1"`. -/
def demoInsightsHistory : String → Option InsightsData :=
  fun cid => if cid = "c1" then some emptyInsights else none

/-- C9 (counterexample): the claim says that whenever the capability call
or the JSON parse fails, `processSentence` returns the prior accumulated
record unchanged and does not update the stored per-session record.  It
does not hold when a caller name is supplied: the name is pushed into
`persons_described` before the extraction attempt, in place, so on failure
the returned record — and, by aliasing, the stored one — carries the new
entry.  Here the prior record for `"c1"` had no persons. -/
theorem processSentence_failure_counterexample :
    (processSentence demoInsightsHistory "There is a fire" "c1"
        (some "Alice") none).1.persons_described
      = [PersonEntry.obj "Alice" "caller"] ∧
    ((demoInsightsHistory "c1").getD emptyInsights).persons_described
      = [] ∧
    ((processSentence demoInsightsHistory "There is a fire" "c1"
        (some "Alice") none).2 "c1").map InsightsData.persons_described
      = some [PersonEntry.obj "Alice" "caller"] ∧
    (demoInsightsHistory "c1").map InsightsData.persons_described
      = some [] := by
  refine ⟨rfl, rfl, ?_, rfl⟩
  show (Function.update demoInsightsHistory "c1" _ "c1").map _ = _
  rw [Function.update_same]
  rfl

/-- C9 (amended): on capability or parse failure `processSentence` raises
nothing and returns the prior accumulated record with only the one-time
caller-name injection applied; the stored record is that same injected
record when the session already existed (in-place mutation of the aliased
object) and the store is untouched otherwise; in particular, when no
caller name is supplied, the prior record is returned unchanged and the
store is exactly as before. -/
theorem processSentence_failure_amended
    (history : String → Option InsightsData) (s cid : String)
    (cname : Option String) :
    (processSentence history s cid cname none).1 =
      injectCallerName ((history cid).getD emptyInsights) cname ∧
    (processSentence history s cid cname none).2 cid =
      (history cid).map
        (fun _ => injectCallerName ((history cid).getD emptyInsights) cname) ∧
    (cname = none →
      processSentence history s cid cname none =
        ((history cid).getD emptyInsights, history)) := by
  refine ⟨rfl, ?_, ?_⟩
  · show (match history cid with
      | some _ => Function.update history cid
          (some (injectCallerName ((history cid).getD emptyInsights) cname))
      | none => history) cid = _
    cases h : history cid with
    | none => simp [h]
    | some v => simp [h, Function.update_same]
  · intro hn
    subst hn
    show (injectCallerName ((history cid).getD emptyInsights) none,
          match history cid with
          | some _ => Function.update history cid
              (some (injectCallerName ((history cid).getD emptyInsights) none))
          | none => history) = _
    cases h : history cid with
    | none => rfl
    | some v =>
      simp only [injectCallerName, h, Option.getD_some]
      rw [show (some v) = history cid from h.symm, Function.update_eq_self]

/-- Witness for `processSentence_failure_amended`: no caller name, failing
extraction, existing `"c1"` session — the record and the store are
untouched. -/
theorem processSentence_failure_amended_witness :
    processSentence demoInsightsHistory "hello" "c1" none none =
      ((demoInsightsHistory "c1").getD emptyInsights, demoInsightsHistory) :=
  (processSentence_failure_amended demoInsightsHistory "hello" "c1" none).2.2
    rfl

end RudraOne
